import Mathlib

/-!
Yamaha RX-E600MK2 infrared remote (Arduino sketch).

Shallow embedding of `Scripts/yamaha_remote_arduino.c`.

The sketch is effectful straight-line code over three devices: the serial
port (`Serial.print`, `Serial.println`), the infrared sender
(`IrSender.sendNEC`) and the clock (`delay`).  Every routine of the sketch
is embedded as a function returning the list of device events it performs,
in program order; sequencing is list concatenation.

An Arduino `String` is embedded as a Lean `String`: its characters are the
`len` bytes of the buffer, which may include NUL characters (the serial
reader appends every byte it receives).  `cmd == "LIT"` is
`String::equals(const char*)`, a `strcmp` on the buffer, so it sees `cmd`
only up to its first NUL character (`cstr`).  A `uint8_t` is a `Nat` reduced
modulo `256` where it is received.
-/

namespace Yamaha

/-! ## Device events -/

/-- One observable action of the sketch on its devices. -/
inductive Event where
  /-- `Serial.print(text)` : text without a line end. -/
  | print (text : String)
  /-- `Serial.println(text)` : text followed by a line end. -/
  | println (text : String)
  /-- `IrSender.sendNEC(address, command, repeats)` : one infrared frame. -/
  | sendNEC (address command repeats : Nat)
  /-- `delay(ms)` : a scripted pause in milliseconds. -/
  | delay (ms : Nat)
  deriving DecidableEq

/-- A run of the sketch, as the events it performs in order. -/
abbrev Trace := List Event

/-! ## Constants (`#define`s, lines 8-53) -/

def IR_SEND_PIN : Nat := 3
def BUTTON_PIN : Nat := 2

def YAMAHA_ADDRESS : Nat := 0x78

def POWER : Nat := 0x0F
def DIGIT_0 : Nat := 0x10
def DIGIT_1 : Nat := 0x11
def DIGIT_2 : Nat := 0x12
def DIGIT_3 : Nat := 0x13
def DIGIT_4 : Nat := 0x14
def DIGIT_5 : Nat := 0x15
def DIGIT_6 : Nat := 0x16
def DIGIT_7 : Nat := 0x17
def DIGIT_8 : Nat := 0x18
def DIGIT_9 : Nat := 0x19
def MODE_10 : Nat := 0x1A
def START_100 : Nat := 0x1D
def REP_A : Nat := 0x0C
def RANDOM_B : Nat := 0x07
def PROG_C : Nat := 0x0B
def D_KEY : Nat := 0x09
def PAUSE : Nat := 0x0A
def TIME : Nat := 0x08
def PLAY : Nat := 0x02
def REW : Nat := 0x04
def STOP : Nat := 0x01
def FF : Nat := 0x03
def TAPE_DIR : Nat := 0x43
def PRESET_DN : Nat := 0x1C
def TUNER : Nat := 0x4B
def PRESET_UP : Nat := 0x1B
def MD : Nat := 0x57
def DVD : Nat := 0x4A
def TAPE : Nat := 0x41
def AUX : Nat := 0x49
def MD_REC : Nat := 0x58
def TAPE_REC : Nat := 0x46
def MODE : Nat := 0x05
def START : Nat := 0x06
def SLEEP : Nat := 0x4F
def VOL_UP : Nat := 0x1E
def DISPLAY : Nat := 0x4E
def VOL_DOWN : Nat := 0x1F

/-- The command-code `#define`s of lines 15-53, in source order. -/
def commandCodes : List Nat :=
  [POWER, DIGIT_0, DIGIT_1, DIGIT_2, DIGIT_3, DIGIT_4, DIGIT_5, DIGIT_6,
   DIGIT_7, DIGIT_8, DIGIT_9, MODE_10, START_100, REP_A, RANDOM_B, PROG_C,
   D_KEY, PAUSE, TIME, PLAY, REW, STOP, FF, TAPE_DIR, PRESET_DN, TUNER,
   PRESET_UP, MD, DVD, TAPE, AUX, MD_REC, TAPE_REC, MODE, START, SLEEP,
   VOL_UP, DISPLAY, VOL_DOWN]

/-! ## Arduino core routines used by the sketch -/

/-- The character `Print::printNumber` writes for one digit value:
`c < 10 ? c + '0' : c + 'A' - 10`. -/
def digitChar (c : Nat) : Char :=
  if c < 10 then Char.ofNat (c + 48) else Char.ofNat (c + 65 - 10)

/-- The `do ... while (n)` loop of `Print::printNumber`: digits are produced
least significant first and stored right to left.  `fuel` bounds the number
of digits (the core's buffer holds `8 * sizeof(long)` of them). -/
def printNumberLoop : Nat → Nat → Nat → List Char → List Char
  | 0, _, _, acc => acc
  | fuel + 1, n, base, acc =>
    let acc1 := digitChar (n % base) :: acc
    if n / base = 0 then acc1 else printNumberLoop fuel (n / base) base acc1

/-- The text `Serial.print(n, base)` writes (`Print::printNumber`): no
leading zeros, upper-case letters, base 10 when `base < 2`. -/
def printNumber (n base : Nat) : String :=
  String.mk (printNumberLoop 32 n (if base < 2 then 10 else base) [])

def HEX : Nat := 16

/-- C `isspace` in the default locale: space, `\t`, `\n`, `\v`, `\f`, `\r`. -/
def isspace (c : Char) : Bool :=
  c.toNat = 32 || (9 ≤ c.toNat && c.toNat ≤ 13)

/-- C `toupper` in the default locale: `a`..`z` to `A`..`Z`, others kept. -/
def toupper (c : Char) : Char :=
  if 97 ≤ c.toNat ∧ c.toNat ≤ 122 then Char.ofNat (c.toNat - 32) else c

/-- Arduino `String::trim` : drop the leading and the trailing `isspace`
characters. -/
def trim (s : String) : String :=
  String.mk ((s.data.dropWhile isspace).reverse.dropWhile isspace).reverse

/-- Whether `c` is not the NUL character, the terminator of a C string. -/
def notNul (c : Char) : Bool :=
  c.toNat != 0

/-- The C string held by the buffer of an Arduino `String`: its characters
before the first NUL character (all of them when there is none).  This is
what `strcmp` and every `for (p = buffer; *p; p++)` loop see. -/
def cstr (s : String) : String :=
  String.mk (s.data.takeWhile notNul)

/-- Arduino `String::toUpperCase` : `for (char *p = buffer; *p; p++)
*p = toupper(*p)`, that is `toupper` on every character before the first
NUL character; what follows it is left as it is. -/
def toUpperCase (s : String) : String :=
  String.mk ((s.data.takeWhile notNul).map toupper ++ s.data.dropWhile notNul)

/-- Arduino `String::equals(const char *cstr)`, the `==` of the sketch
against a (non-empty, NUL-free) literal: `strcmp(buffer, lit) == 0`, which
compares the C string of the buffer with the literal. -/
def equals (s lit : String) : Bool :=
  decide (cstr s = lit)

/-- Arduino `Stream::readStringUntil(terminator)` on the received
characters `rx`: the characters before the first `terminator`, and what
stays in the receive buffer (the terminator itself is consumed).  Without a
terminator the read ends at the time-out with everything received. -/
def readStringUntil (terminator : Char) (rx : List Char) : String × List Char :=
  (String.mk (rx.takeWhile (fun c => c != terminator)),
   (rx.dropWhile (fun c => c != terminator)).drop 1)

/-! ## The sketch -/

/-- `sendIRCommand(uint8_t command, String name)`, lines 88-98. -/
def sendIRCommand (command : Nat) (name : String) : Trace :=
  [ Event.print "Envoi: ",
    Event.print name,
    Event.print " (0x",
    Event.print (printNumber (command % 256) HEX),
    Event.println ")",
    Event.sendNEC YAMAHA_ADDRESS (command % 256) 0,
    Event.delay 100 ]

/-- `sendPowerCommand()`, lines 101-111. -/
def sendPowerCommand : Trace :=
  [ Event.println "Envoi commande POWER (double)",
    Event.sendNEC YAMAHA_ADDRESS POWER 0,
    Event.delay 100,
    Event.sendNEC YAMAHA_ADDRESS POWER 0,
    Event.delay 500 ]

/-- `testSequence()`, lines 194-208. -/
def testSequence : Trace :=
  [Event.println "=== SÉQUENCE DE TEST ==="]
  ++ [Event.println "Test VOLUME..."]
  ++ sendIRCommand VOL_UP "VOL UP"
  ++ [Event.delay 1000]
  ++ sendIRCommand VOL_DOWN "VOL DOWN"
  ++ [Event.delay 1000]
  ++ [Event.println "Test POWER..."]
  ++ sendPowerCommand
  ++ [Event.delay 2000]
  ++ [Event.println "Test terminé."]

/-- `printHelp()`, lines 211-235. -/
def printHelp : Trace :=
  [ Event.println "\n=== COMMANDES DISPONIBLES ===",
    Event.println "POWER/PWR    - Marche/Arrêt",
    Event.println "VOL+/VOLUP   - Volume +",
    Event.println "VOL-/VOLDOWN - Volume -",
    Event.println "PLAY         - Lecture",
    Event.println "PAUSE        - Pause",
    Event.println "STOP         - Arrêt",
    Event.println "FF/FORWARD   - Avance rapide",
    Event.println "REW/REWIND   - Retour rapide",
    Event.println "TUNER/RADIO  - Tuner FM",
    Event.println "TAPE         - Cassette",
    Event.println "CD/DISC      - CD",
    Event.println "AUX          - Entrée auxiliaire",
    Event.println "MD           - MiniDisc",
    Event.println "DVD          - DVD",
    Event.println "RANDOM       - Lecture aléatoire",
    Event.println "REPEAT       - Répétition",
    Event.println "DISPLAY      - Affichage",
    Event.println "SLEEP        - Minuterie",
    Event.println "1-9, 0       - Chiffres",
    Event.println "TEST         - Séquence de test",
    Event.println "HELP         - Cette aide",
    Event.println "=============================\n" ]

/-- The message of the final `else` of `processCommand`, line 189. -/
def unknownMessage : String :=
  "Commande inconnue. Tapez 'HELP' pour voir les commandes."

/-- `processCommand(String cmd)`, lines 114-191.  Every `cmd == "LIT"` is
`equals cmd "LIT"`, every `||` the Boolean or. -/
def processCommand (cmd : String) : Trace :=
  if equals cmd "HELP" then printHelp
  else if equals cmd "POWER" || equals cmd "PWR" then sendPowerCommand
  else if equals cmd "VOL+" || equals cmd "VOLUP" then sendIRCommand VOL_UP "VOLUME UP"
  else if equals cmd "VOL-" || equals cmd "VOLDOWN" then sendIRCommand VOL_DOWN "VOLUME DOWN"
  else if equals cmd "PLAY" then sendIRCommand PLAY "PLAY"
  else if equals cmd "PAUSE" then sendIRCommand PAUSE "PAUSE"
  else if equals cmd "STOP" then sendIRCommand STOP "STOP"
  else if equals cmd "FF" || equals cmd "FORWARD" then sendIRCommand FF "FAST FORWARD"
  else if equals cmd "REW" || equals cmd "REWIND" then sendIRCommand REW "REWIND"
  else if equals cmd "CD" || equals cmd "DISC" then sendIRCommand MODE "CD/DISC"
  else if equals cmd "TUNER" || equals cmd "RADIO" then sendIRCommand TUNER "TUNER"
  else if equals cmd "TAPE" then sendIRCommand TAPE "TAPE"
  else if equals cmd "AUX" then sendIRCommand AUX "AUX"
  else if equals cmd "MD" then sendIRCommand MD "MD"
  else if equals cmd "DVD" then sendIRCommand DVD "DVD"
  else if equals cmd "DISPLAY" then sendIRCommand DISPLAY "DISPLAY"
  else if equals cmd "SLEEP" then sendIRCommand SLEEP "SLEEP"
  else if equals cmd "RANDOM" then sendIRCommand RANDOM_B "RANDOM"
  else if equals cmd "REPEAT" then sendIRCommand REP_A "REPEAT"
  else if equals cmd "1" then sendIRCommand DIGIT_1 "1"
  else if equals cmd "2" then sendIRCommand DIGIT_2 "2"
  else if equals cmd "3" then sendIRCommand DIGIT_3 "3"
  else if equals cmd "4" then sendIRCommand DIGIT_4 "4"
  else if equals cmd "5" then sendIRCommand DIGIT_5 "5"
  else if equals cmd "6" then sendIRCommand DIGIT_6 "6"
  else if equals cmd "7" then sendIRCommand DIGIT_7 "7"
  else if equals cmd "8" then sendIRCommand DIGIT_8 "8"
  else if equals cmd "9" then sendIRCommand DIGIT_9 "9"
  else if equals cmd "0" then sendIRCommand DIGIT_0 "0"
  else if equals cmd "TEST" then testSequence
  else [Event.println unknownMessage]

/-- One pass of `loop()`, lines 70-85.  `buttonLow` is whether
`digitalRead(BUTTON_PIN) == LOW`; `rx` is the serial receive buffer.  The
result is the events performed and the receive buffer left. -/
def loop (buttonLow : Bool) (rx : List Char) : Trace × List Char :=
  let button : Trace :=
    if buttonLow then sendPowerCommand ++ [Event.delay 500] else []
  if 0 < rx.length then
    let r := readStringUntil '\n' rx
    let command := toUpperCase (trim r.1)
    (button ++ processCommand command, r.2)
  else (button, rx)

/-! ## Observations on a trace -/

/-- The infrared frames of a trace, in order, as
`(address, command, repeats)`. -/
def frames : Trace → List (Nat × Nat × Nat)
  | [] => []
  | Event.sendNEC a c r :: t => (a, c, r) :: frames t
  | _ :: t => frames t

/-- The command codes of the frames of a trace, in order. -/
def codes (t : Trace) : List Nat :=
  (frames t).map (fun f => f.2.1)

/-- The scripted pauses of a trace, in order, in milliseconds. -/
def delays : Trace → List Nat
  | [] => []
  | Event.delay ms :: t => ms :: delays t
  | _ :: t => delays t

/-- The frames of a trace, each with the scripted delay (in milliseconds)
elapsed since `now` when it is sent, as `(time, address, command)`. -/
def schedule : Nat → Trace → List (Nat × Nat × Nat)
  | _, [] => []
  | now, Event.sendNEC a c _ :: t => (now, a, c) :: schedule now t
  | now, Event.delay ms :: t => schedule (now + ms) t
  | now, _ :: t => schedule now t

/-- The text a trace writes to the serial port (`println` ends the line
with carriage return and line feed). -/
def serialText : Trace → String
  | [] => ""
  | Event.print s :: t => s ++ serialText t
  | Event.println s :: t => s ++ "\r\n" ++ serialText t
  | _ :: t => serialText t

/-! ## Vocabulary of the command interface -/

/-- The tokens listed as recognized by the serial interface: `HELP`, the
power family, the single-command tokens, the digits and `TEST`. -/
def recognizedTokens : List String :=
  ["HELP", "POWER", "PWR", "VOL+", "VOLUP", "VOL-", "VOLDOWN", "PLAY",
   "PAUSE", "STOP", "FF", "FORWARD", "REW", "REWIND", "CD", "DISC", "TUNER",
   "RADIO", "TAPE", "AUX", "MD", "DVD", "DISPLAY", "SLEEP", "RANDOM",
   "REPEAT", "0", "1", "2", "3", "4", "5", "6", "7", "8", "9", "TEST"]

/-- The ordinal of the `if` / `else if` arm of `processCommand` that `cmd`
selects (the same chain of `equals` tests, lines 116-188): `0` for the `HELP` arm,
`1` for the power arm, ..., `29` for the `TEST` arm, `30` for the final
`else`.  Two tokens are aliases when they select the same arm. -/
def branchOf (cmd : String) : Nat :=
  if equals cmd "HELP" then 0
  else if equals cmd "POWER" || equals cmd "PWR" then 1
  else if equals cmd "VOL+" || equals cmd "VOLUP" then 2
  else if equals cmd "VOL-" || equals cmd "VOLDOWN" then 3
  else if equals cmd "PLAY" then 4
  else if equals cmd "PAUSE" then 5
  else if equals cmd "STOP" then 6
  else if equals cmd "FF" || equals cmd "FORWARD" then 7
  else if equals cmd "REW" || equals cmd "REWIND" then 8
  else if equals cmd "CD" || equals cmd "DISC" then 9
  else if equals cmd "TUNER" || equals cmd "RADIO" then 10
  else if equals cmd "TAPE" then 11
  else if equals cmd "AUX" then 12
  else if equals cmd "MD" then 13
  else if equals cmd "DVD" then 14
  else if equals cmd "DISPLAY" then 15
  else if equals cmd "SLEEP" then 16
  else if equals cmd "RANDOM" then 17
  else if equals cmd "REPEAT" then 18
  else if equals cmd "1" then 19
  else if equals cmd "2" then 20
  else if equals cmd "3" then 21
  else if equals cmd "4" then 22
  else if equals cmd "5" then 23
  else if equals cmd "6" then 24
  else if equals cmd "7" then 25
  else if equals cmd "8" then 26
  else if equals cmd "9" then 27
  else if equals cmd "0" then 28
  else if equals cmd "TEST" then 29
  else 30

/-- The token made of the decimal digit `d` (`"0"` .. `"9"` for `d < 10`). -/
def digitToken (d : Nat) : String :=
  String.mk [Char.ofNat (48 + d)]

/-- The documented code of every single-command token: the named tokens
with the value of their constant, then the digit tokens with `0x10 + d`. -/
def singleCommandTable : List (String × Nat) :=
  [("VOL+", 0x1E), ("VOLUP", 0x1E), ("VOL-", 0x1F), ("VOLDOWN", 0x1F),
   ("PLAY", 0x02), ("PAUSE", 0x0A), ("STOP", 0x01), ("FF", 0x03),
   ("FORWARD", 0x03), ("REW", 0x04), ("REWIND", 0x04), ("CD", 0x05),
   ("DISC", 0x05), ("TUNER", 0x4B), ("RADIO", 0x4B), ("TAPE", 0x41),
   ("AUX", 0x49), ("MD", 0x57), ("DVD", 0x4A), ("DISPLAY", 0x4E),
   ("SLEEP", 0x4F), ("RANDOM", 0x07), ("REPEAT", 0x0C)]
  ++ (List.range 10).map (fun d => (digitToken d, 0x10 + d))

/-- The value of one hexadecimal digit character (`0`-`9`, `A`-`F`). -/
def hexDigitValue (c : Char) : Option Nat :=
  if 48 ≤ c.toNat ∧ c.toNat ≤ 57 then some (c.toNat - 48)
  else if 65 ≤ c.toNat ∧ c.toNat ≤ 70 then some (c.toNat - 55)
  else none

/-- The number a non-empty hexadecimal numeral denotes, most significant
digit first. -/
def hexValue (s : String) : Option Nat :=
  if s.data = [] then none
  else s.data.foldl
    (fun acc c =>
      match acc, hexDigitValue c with
      | some a, some d => some (16 * a + d)
      | _, _ => none)
    (some 0)

/-- Whether `c` is an upper-case ASCII letter. -/
def isUpperLetter (c : Char) : Bool :=
  65 ≤ c.toNat && c.toNat ≤ 90

/-- Whether `a` and `b` are the same character up to the case of an ASCII
letter: equal, or one is an upper-case letter and the other its lower-case
form (32 code points above). -/
def sameLetter (a b : Char) : Bool :=
  a == b || (isUpperLetter b && a.toNat == b.toNat + 32)
    || (isUpperLetter a && b.toNat == a.toNat + 32)

/-- Whether `s` is obtained from `t` by changing the case of some of its
ASCII letters. -/
def caseVariant : List Char → List Char → Bool
  | [], [] => true
  | a :: s, b :: t => sameLetter a b && caseVariant s t
  | _, _ => false

/-- Whether every character of `l` is whitespace other than the line
terminator. -/
def isPadding (l : List Char) : Bool :=
  l.all (fun c => isspace c && c != '\n')

/-! ## The NEC frame -/

/-- Modelled from the spec: the `width` low bits of `n`, least significant
first (the bit order of the frame `IrSender.sendNEC` transmits; the
IRremote library is not part of the sources). -/
def bitsLSB : Nat → Nat → List Bool
  | 0, _ => []
  | width + 1, n => decide (n % 2 = 1) :: bitsLSB width (n / 2)

/-- Modelled from the spec: the number whose bits, least significant first,
are `bits` (the receiver side of `bitsLSB`). -/
def ofBitsLSB : List Bool → Nat
  | [] => 0
  | b :: bits => (if b then 1 else 0) + 2 * ofBitsLSB bits

/-- Modelled from the spec: the 32-bit frame `IrSender.sendNEC(address,
command, _)` transmits for an 8-bit address and an 8-bit command (the
IRremote library is not part of the sources): the address byte, its bitwise
complement, the command byte, its bitwise complement, each least
significant bit first. -/
def necFrame (address command : Nat) : List Bool :=
  bitsLSB 8 address ++ (bitsLSB 8 address).map not
    ++ (bitsLSB 8 command ++ (bitsLSB 8 command).map not)

/-- Modelled from the spec: decoding of a received NEC frame.  A frame is
accepted when it has 32 bits and both complement bytes are the bitwise
complements of the bytes they follow; the result is `(address, command)`. -/
def necDecode (frame : List Bool) : Option (Nat × Nat) :=
  let address := frame.take 8
  let addressInv := (frame.drop 8).take 8
  let command := (frame.drop 16).take 8
  let commandInv := (frame.drop 24).take 8
  if frame.length = 32 ∧ addressInv = address.map not ∧ commandInv = command.map not then
    some (ofBitsLSB address, ofBitsLSB command)
  else none

/-! ## Basic facts -/

theorem frames_append (s t : Trace) : frames (s ++ t) = frames s ++ frames t := by
  induction s with
  | nil => rfl
  | cons e s ih => cases e <;> simp [frames, ih]

theorem delays_append (s t : Trace) : delays (s ++ t) = delays s ++ delays t := by
  induction s with
  | nil => rfl
  | cons e s ih => cases e <;> simp [delays, ih]

theorem takeWhile_idem (p : Char → Bool) (l : List Char) :
    (l.takeWhile p).takeWhile p = l.takeWhile p := by
  induction l with
  | nil => rfl
  | cons a l ih =>
    by_cases h : p a = true
    · simp [List.takeWhile_cons, h, ih]
    · simp [List.takeWhile_cons, h]

theorem cstr_cstr (s : String) : cstr (cstr s) = cstr s := by
  unfold cstr
  exact congrArg String.mk (takeWhile_idem notNul s.data)

/-- A text without NUL character is its own C string. -/
theorem cstr_of_notNul (s : String) (h : ∀ c ∈ s.data, notNul c = true) :
    cstr s = s := by
  unfold cstr
  have : s.data.takeWhile notNul = s.data := List.takeWhile_eq_self_iff.mpr h
  rw [this]

theorem equals_cstr (s lit : String) : equals (cstr s) lit = equals s lit := by
  unfold equals
  rw [cstr_cstr]

/-- The comparisons of `processCommand` see only the C string of the
command text. -/
theorem processCommand_cstr (cmd : String) :
    processCommand (cstr cmd) = processCommand cmd := by
  unfold processCommand
  simp only [equals_cstr]

theorem branchOf_cstr (cmd : String) : branchOf (cstr cmd) = branchOf cmd := by
  unfold branchOf
  simp only [equals_cstr]

set_option maxRecDepth 100000 in
/-- Recognized tokens have no NUL character. -/
theorem cstr_of_recognized : ∀ t ∈ recognizedTokens, cstr t = t := by
  decide

/-- A command whose C string is outside the recognized tokens falls through
every test of `processCommand` to the final `else`. -/
theorem processCommand_of_not_recognized (cmd : String)
    (h : cstr cmd ∉ recognizedTokens) :
    processCommand cmd = [Event.println unknownMessage] := by
  simp only [recognizedTokens, List.mem_cons, List.mem_singleton, List.not_mem_nil,
    not_or, or_false] at h
  simp [processCommand, equals, h]

set_option maxRecDepth 100000 in
/-- No recognized token reaches the final `else`. -/
theorem unknown_not_mem_of_recognized :
    ∀ t ∈ recognizedTokens, Event.println unknownMessage ∉ processCommand t := by
  decide

/-! ## Single commands -/

set_option maxRecDepth 100000 in
/-- C1. Every single-command token `tok` with documented code `code` makes
`processCommand` perform exactly: the log line `Envoi: <name> (0x<hex>)`,
where `<hex>` is a hexadecimal numeral of value `code`, then one frame
`sendNEC(0x78, code, 0)`, then one pause of 100 ms; `code` is one of the
named command-code constants. -/
theorem processCommand_single_command (tok : String) (code : Nat)
    (h : (tok, code) ∈ singleCommandTable) :
    ∃ name hex : String,
      processCommand tok =
        [ Event.print "Envoi: ", Event.print name, Event.print " (0x",
          Event.print hex, Event.println ")",
          Event.sendNEC 0x78 code 0, Event.delay 100 ]
      ∧ hexValue hex = some code
      ∧ serialText (processCommand tok) = "Envoi: " ++ name ++ " (0x" ++ hex ++ ")\r\n"
      ∧ frames (processCommand tok) = [(0x78, code, 0)]
      ∧ delays (processCommand tok) = [100]
      ∧ code ∈ commandCodes := by
  have key : ∀ e ∈ singleCommandTable,
      processCommand e.1 =
        [ Event.print "Envoi: ",
          Event.print (match (processCommand e.1).get? 1 with
            | some (Event.print n) => n
            | _ => ""),
          Event.print " (0x", Event.print (printNumber e.2 HEX), Event.println ")",
          Event.sendNEC 0x78 e.2 0, Event.delay 100 ]
      ∧ hexValue (printNumber e.2 HEX) = some e.2
      ∧ e.2 ∈ commandCodes := by
    decide
  obtain ⟨h1, h2, h3⟩ := key (tok, code) h
  refine ⟨_, printNumber code HEX, h1, h2, ?_, ?_, ?_, h3⟩
  · rw [h1]; simp [serialText, String.append_assoc]
  · rw [h1]; rfl
  · rw [h1]; rfl

/-- Witness of C1 at the token `VOL+`. -/
theorem processCommand_single_command_witness :
    ("VOL+", 0x1E) ∈ singleCommandTable ∧
    ∃ name hex : String,
      processCommand "VOL+" =
        [ Event.print "Envoi: ", Event.print name, Event.print " (0x",
          Event.print hex, Event.println ")",
          Event.sendNEC 0x78 0x1E 0, Event.delay 100 ]
      ∧ hexValue hex = some 0x1E
      ∧ serialText (processCommand "VOL+") = "Envoi: " ++ name ++ " (0x" ++ hex ++ ")\r\n"
      ∧ frames (processCommand "VOL+") = [(0x78, 0x1E, 0)]
      ∧ delays (processCommand "VOL+") = [100]
      ∧ 0x1E ∈ commandCodes :=
  ⟨by decide, processCommand_single_command "VOL+" 0x1E (by decide)⟩

/-! ## Unknown commands -/

/-- C2 as stated fails: the command text `PLAY`, NUL, `X` is not one of the
recognized tokens, yet `processCommand` does not print the unknown-command
message for it: the comparison with `PLAY` stops at the NUL character and
the `PLAY` frame is sent. -/
theorem unknown_iff_fails_after_nul :
    ¬ (Event.println unknownMessage ∈ processCommand "PLAY\x00X"
        ↔ "PLAY\x00X" ∉ recognizedTokens)
    ∧ frames (processCommand "PLAY\x00X") = [(0x78, 0x02, 0)] := by
  decide

/-- C2, amended. `processCommand cmd` prints the unknown-command message
exactly when the text of `cmd` before its first NUL character (all of `cmd`
when it has none) is not a recognized token; so for a text without NUL
character, exactly when `cmd` is not a recognized token.  Whenever it
prints that message it sends no frame and performs no pause. -/
theorem processCommand_unknown_iff (cmd : String) :
    (Event.println unknownMessage ∈ processCommand cmd ↔ cstr cmd ∉ recognizedTokens)
    ∧ ((∀ c ∈ cmd.data, notNul c = true) →
        (Event.println unknownMessage ∈ processCommand cmd ↔ cmd ∉ recognizedTokens))
    ∧ (Event.println unknownMessage ∈ processCommand cmd →
        frames (processCommand cmd) = [] ∧ delays (processCommand cmd) = []) := by
  have main : (Event.println unknownMessage ∈ processCommand cmd
        ↔ cstr cmd ∉ recognizedTokens)
      ∧ (Event.println unknownMessage ∈ processCommand cmd →
        frames (processCommand cmd) = [] ∧ delays (processCommand cmd) = []) := by
    by_cases h : cstr cmd ∈ recognizedTokens
    · have hn := unknown_not_mem_of_recognized (cstr cmd) h
      rw [processCommand_cstr] at hn
      exact ⟨⟨fun hm => absurd hm hn, fun hc => absurd h hc⟩, fun hm => absurd hm hn⟩
    · have he := processCommand_of_not_recognized cmd h
      refine ⟨⟨fun _ => h, fun _ => ?_⟩, fun _ => ?_⟩
      · rw [he]; exact List.mem_singleton.mpr rfl
      · rw [he]; exact ⟨rfl, rfl⟩
  refine ⟨main.1, fun hnul => ?_, main.2⟩
  have hc := cstr_of_notNul cmd hnul
  rw [hc] at main
  exact main.1

/-- Witness of C2, amended, at the command `FOOBAR`. -/
theorem processCommand_unknown_iff_witness :
    (∀ c ∈ "FOOBAR".data, notNul c = true)
    ∧ (Event.println unknownMessage ∈ processCommand "FOOBAR"
        ↔ "FOOBAR" ∉ recognizedTokens)
    ∧ Event.println unknownMessage ∈ processCommand "FOOBAR"
    ∧ frames (processCommand "FOOBAR") = []
    ∧ delays (processCommand "FOOBAR") = [] :=
  ⟨by decide, (processCommand_unknown_iff "FOOBAR").2.1 (by decide), by decide,
    (processCommand_unknown_iff "FOOBAR").2.2 (by decide)⟩

/-! ## The power double-transmit -/

/-- C3. `sendPowerCommand` sends exactly two frames, both
`sendNEC(0x78, POWER = 0x0F, 0)`, with one pause of 100 ms between them and
one pause of 500 ms after the second: started at time `now`, the frames go
out at `now` and `now + 100`. -/
theorem sendPowerCommand_two_frames :
    sendPowerCommand =
      [ Event.println "Envoi commande POWER (double)",
        Event.sendNEC 0x78 0x0F 0, Event.delay 100,
        Event.sendNEC 0x78 0x0F 0, Event.delay 500 ]
    ∧ frames sendPowerCommand = [(0x78, 0x0F, 0), (0x78, 0x0F, 0)]
    ∧ delays sendPowerCommand = [100, 500]
    ∧ (∀ now, schedule now sendPowerCommand =
        [(now, 0x78, 0x0F), (now + 100, 0x78, 0x0F)])
    ∧ POWER = 0x0F := by
  refine ⟨rfl, rfl, rfl, fun now => rfl, rfl⟩

/-- C4 as stated fails: on the line `power` the two frames are not 500 ms
(or more) of scripted delay apart. -/
theorem loop_power_not_500_apart :
    ¬ ∃ t1 t2 : Nat,
        schedule 0 (loop false "power\n".data).1 = [(t1, 0x78, 0x0F), (t2, 0x78, 0x0F)]
        ∧ t1 + 500 ≤ t2 := by
  rintro ⟨t1, t2, h, hle⟩
  have hs : schedule 0 (loop false "power\n".data).1
      = [(0, 0x78, 0x0F), (100, 0x78, 0x0F)] := by decide
  rw [hs] at h
  simp only [List.cons.injEq, Prod.mk.injEq, and_true] at h
  omega

/-- C4, amended. The serial line `power` (button not pressed, anything may
follow in the receive buffer) makes one pass of `loop` run the power
double-transmit: exactly two frames `(0x78, 0x0F)`, the second after 100 ms
of scripted delay from the first, and a pause of 500 ms after the second. -/
theorem loop_power_line (rest : List Char) :
    loop false ("power\n".data ++ rest) = (sendPowerCommand, rest)
    ∧ frames (loop false ("power\n".data ++ rest)).1 = [(0x78, 0x0F, 0), (0x78, 0x0F, 0)]
    ∧ schedule 0 (loop false ("power\n".data ++ rest)).1
        = [(0, 0x78, 0x0F), (100, 0x78, 0x0F)]
    ∧ delays (loop false ("power\n".data ++ rest)).1 = [100, 500] := by
  have h : loop false ("power\n".data ++ rest) = (sendPowerCommand, rest) := by
    have hc : toUpperCase (trim (String.mk ['p', 'o', 'w', 'e', 'r'])) = "POWER" := by decide
    have hp : processCommand "POWER" = sendPowerCommand := by decide
    simp [loop, readStringUntil, hc, hp]
  rw [h]
  exact ⟨rfl, rfl, rfl, rfl⟩

/-! ## Aliases -/

/-- C5. The two members of every alias pair make `processCommand` perform
the same events: same log lines, same frames, same pauses. -/
theorem processCommand_alias_pairs :
    processCommand "POWER" = processCommand "PWR"
    ∧ processCommand "VOL+" = processCommand "VOLUP"
    ∧ processCommand "VOL-" = processCommand "VOLDOWN"
    ∧ processCommand "FF" = processCommand "FORWARD"
    ∧ processCommand "REW" = processCommand "REWIND"
    ∧ processCommand "CD" = processCommand "DISC"
    ∧ processCommand "TUNER" = processCommand "RADIO" := by
  decide

/-! ## The double-transmit is for POWER only -/

set_option maxRecDepth 100000 in
/-- For a recognized token, the transmitted codes other than `POWER` are
pairwise distinct. -/
theorem codes_nodup_of_recognized :
    ∀ t ∈ recognizedTokens,
      ((codes (processCommand t)).filter (fun c => decide (c ≠ POWER))).Nodup := by
  decide

/-- C9. In one call of `processCommand`, every command code other than
`POWER` (0x0F) is carried by at most one frame, whatever the command text;
`sendIRCommand` sends exactly one frame, carrying its (8-bit) code; the
code `POWER` is carried twice by the power arm. -/
theorem double_transmit_power_only :
    (∀ (cmd : String) (c : Nat), c ≠ POWER →
        (codes (processCommand cmd)).count c ≤ 1)
    ∧ (∀ (command : Nat) (name : String),
        frames (sendIRCommand command name) = [(YAMAHA_ADDRESS, command % 256, 0)])
    ∧ codes (processCommand "POWER") = [POWER, POWER] := by
  refine ⟨fun cmd c hc => ?_, fun _ _ => rfl, by decide⟩
  by_cases h : cstr cmd ∈ recognizedTokens
  · have hn := codes_nodup_of_recognized (cstr cmd) h
    rw [processCommand_cstr] at hn
    have hcount : List.count c ((codes (processCommand cmd)).filter
        (fun c => decide (c ≠ POWER))) = List.count c (codes (processCommand cmd)) :=
      List.count_filter (by simpa using hc)
    rw [← hcount]
    exact List.nodup_iff_count_le_one.mp hn c
  · rw [processCommand_of_not_recognized cmd h]
    simp [codes, frames]

/-- Witness of C9: the code `VOL_UP` in the diagnostic sequence. -/
theorem double_transmit_power_only_witness :
    VOL_UP ≠ POWER ∧ (codes (processCommand "TEST")).count VOL_UP ≤ 1 :=
  ⟨by decide, double_transmit_power_only.1 "TEST" VOL_UP (by decide)⟩

/-! ## The diagnostic sequence -/

set_option maxRecDepth 100000 in
/-- Among the recognized tokens only `TEST` sends the frames of the
diagnostic sequence. -/
theorem test_frames_of_recognized :
    ∀ t ∈ recognizedTokens,
      frames (processCommand t) = frames testSequence → t = "TEST" := by
  decide

/-- C10 as stated fails: the command text `TEST`, NUL, `X` is not the token
`TEST`, yet `processCommand` runs the diagnostic sequence for it (the
comparison with `TEST` stops at the NUL character). -/
theorem test_sequence_after_nul :
    ¬ ∀ cmd : String, processCommand cmd = testSequence → cmd = "TEST" := by
  intro h
  exact absurd (h "TEST\x00X" (by decide)) (by decide)

/-- C10, amended. `processCommand "TEST"` performs the diagnostic script and
nothing else: one frame `(0x78, 0x1E)`, pauses (100 + 1000 ms), one frame
`(0x78, 0x1F)`, pauses (100 + 1000 ms), the power double-transmit (two
frames `(0x78, 0x0F)`, 100 ms apart), pauses (500 + 2000 ms); four frames in
all.  `processCommand` sends these frames, and performs this sequence of
events, exactly for the command texts whose part before the first NUL
character is `TEST`; among the texts without NUL character, for `TEST`
only. -/
theorem processCommand_test :
    processCommand "TEST" =
      [ Event.println "=== SÉQUENCE DE TEST ===",
        Event.println "Test VOLUME...",
        Event.print "Envoi: ", Event.print "VOL UP", Event.print " (0x",
        Event.print "1E", Event.println ")",
        Event.sendNEC 0x78 0x1E 0, Event.delay 100,
        Event.delay 1000,
        Event.print "Envoi: ", Event.print "VOL DOWN", Event.print " (0x",
        Event.print "1F", Event.println ")",
        Event.sendNEC 0x78 0x1F 0, Event.delay 100,
        Event.delay 1000,
        Event.println "Test POWER...",
        Event.println "Envoi commande POWER (double)",
        Event.sendNEC 0x78 0x0F 0, Event.delay 100,
        Event.sendNEC 0x78 0x0F 0, Event.delay 500,
        Event.delay 2000,
        Event.println "Test terminé." ]
    ∧ processCommand "TEST" = testSequence
    ∧ frames (processCommand "TEST")
        = [(0x78, 0x1E, 0), (0x78, 0x1F, 0), (0x78, 0x0F, 0), (0x78, 0x0F, 0)]
    ∧ schedule 0 (processCommand "TEST")
        = [(0, 0x78, 0x1E), (1100, 0x78, 0x1F), (2200, 0x78, 0x0F), (2300, 0x78, 0x0F)]
    ∧ delays (processCommand "TEST") = [100, 1000, 100, 1000, 100, 500, 2000]
    ∧ (∀ cmd : String,
        frames (processCommand cmd) = frames testSequence ↔ cstr cmd = "TEST")
    ∧ (∀ cmd : String, processCommand cmd = testSequence ↔ cstr cmd = "TEST")
    ∧ (∀ cmd : String, (∀ c ∈ cmd.data, notNul c = true) →
        ((frames (processCommand cmd) = frames testSequence ↔ cmd = "TEST")
          ∧ (processCommand cmd = testSequence ↔ cmd = "TEST"))) := by
  have hframes : ∀ cmd : String,
      frames (processCommand cmd) = frames testSequence → cstr cmd = "TEST" := by
    intro cmd hf
    by_cases h : cstr cmd ∈ recognizedTokens
    · rw [← processCommand_cstr] at hf
      exact test_frames_of_recognized (cstr cmd) h hf
    · rw [processCommand_of_not_recognized cmd h] at hf
      exact absurd hf (by decide)
  have hrun : ∀ cmd : String, cstr cmd = "TEST" → processCommand cmd = testSequence := by
    intro cmd hc
    rw [← processCommand_cstr, hc]
    decide
  have h1 : ∀ cmd : String,
      frames (processCommand cmd) = frames testSequence ↔ cstr cmd = "TEST" :=
    fun cmd => ⟨hframes cmd, fun hc => by rw [hrun cmd hc]⟩
  have h2 : ∀ cmd : String, processCommand cmd = testSequence ↔ cstr cmd = "TEST" :=
    fun cmd => ⟨fun he => hframes cmd (by rw [he]), hrun cmd⟩
  refine ⟨by decide, by decide, by decide, by decide, by decide, h1, h2, fun cmd hnul => ?_⟩
  have hc := cstr_of_notNul cmd hnul
  have a1 := h1 cmd
  have a2 := h2 cmd
  rw [hc] at a1 a2
  exact ⟨a1, a2⟩

/-- Witness of C10, amended: among NUL-free texts, `VOL+` does not run the
diagnostic sequence. -/
theorem processCommand_test_witness :
    (∀ c ∈ "VOL+".data, notNul c = true)
    ∧ (frames (processCommand "VOL+") = frames testSequence ↔ "VOL+" = "TEST")
    ∧ (processCommand "VOL+" = testSequence ↔ "VOL+" = "TEST") :=
  ⟨by decide, processCommand_test.2.2.2.2.2.2.2 "VOL+" (by decide)⟩

/-! ## The NEC frame round trip -/

theorem length_bitsLSB (width n : Nat) : (bitsLSB width n).length = width := by
  induction width generalizing n with
  | zero => rfl
  | succ w ih => simp [bitsLSB, ih]

theorem ofBitsLSB_bitsLSB (width n : Nat) :
    ofBitsLSB (bitsLSB width n) = n % 2 ^ width := by
  induction width generalizing n with
  | zero => simp [bitsLSB, ofBitsLSB, Nat.mod_one]
  | succ w ih =>
    simp only [bitsLSB, ofBitsLSB, ih]
    rw [Nat.pow_succ, Nat.mul_comm (2 ^ w) 2, Nat.mod_mul]
    rcases Nat.mod_two_eq_zero_or_one n with h | h <;> simp [h]

theorem ofBitsLSB_map_not (bits : List Bool) :
    ofBitsLSB (bits.map not) + ofBitsLSB bits + 1 = 2 ^ bits.length := by
  induction bits with
  | nil => rfl
  | cons b bits ih =>
    simp only [List.map_cons, ofBitsLSB, List.length_cons, Nat.pow_succ]
    cases b <;> simp <;> omega

set_option maxRecDepth 100000 in
theorem xor_byte (b : Nat) (h : b < 256) : b ^^^ 0xFF = 255 - b := by
  revert b
  decide

/-- The frame of a byte pair has 32 bits, made of the address byte, its
bitwise complement, the command byte and its bitwise complement, and it
decodes to the pair. -/
theorem necDecode_necFrame (address command : Nat)
    (ha : address < 256) (hc : command < 256) :
    (necFrame address command).length = 32
    ∧ ofBitsLSB ((necFrame address command).take 8) = address
    ∧ ofBitsLSB (((necFrame address command).drop 8).take 8) = address ^^^ 0xFF
    ∧ ofBitsLSB (((necFrame address command).drop 16).take 8) = command
    ∧ ofBitsLSB (((necFrame address command).drop 24).take 8) = command ^^^ 0xFF
    ∧ necDecode (necFrame address command) = some (address, command) := by
  have hlen : (necFrame address command).length = 32 := by
    simp [necFrame, length_bitsLSB]
  have la : (bitsLSB 8 address).length = 8 := length_bitsLSB 8 address
  have lc : (bitsLSB 8 command).length = 8 := length_bitsLSB 8 command
  have h1 : (necFrame address command).take 8 = bitsLSB 8 address := by
    simp [necFrame, List.take_append_eq_append_take, la]
  have h2 : ((necFrame address command).drop 8).take 8 = (bitsLSB 8 address).map not := by
    simp [necFrame, List.take_append_eq_append_take, List.drop_append_eq_append_drop, la]
  have h3 : ((necFrame address command).drop 16).take 8 = bitsLSB 8 command := by
    simp [necFrame, List.take_append_eq_append_take, List.drop_append_eq_append_drop, la, lc]
  have h4 : ((necFrame address command).drop 24).take 8 = (bitsLSB 8 command).map not := by
    have d1 : (bitsLSB 8 address).drop 24 = [] := List.drop_eq_nil_of_le (by omega)
    have d2 : ((bitsLSB 8 address).map not).drop 16 = [] :=
      List.drop_eq_nil_of_le (by simp [la])
    have d3 : ((bitsLSB 8 command).map not).take 8 = (bitsLSB 8 command).map not :=
      List.take_of_length_le (by simp [lc])
    simp [necFrame, List.take_append_eq_append_take, List.drop_append_eq_append_drop, la, lc,
      d1, d2, d3]
  have va : ofBitsLSB (bitsLSB 8 address) = address := by
    rw [ofBitsLSB_bitsLSB]; exact Nat.mod_eq_of_lt (by omega)
  have vc : ofBitsLSB (bitsLSB 8 command) = command := by
    rw [ofBitsLSB_bitsLSB]; exact Nat.mod_eq_of_lt (by omega)
  have na : ofBitsLSB ((bitsLSB 8 address).map not) = address ^^^ 0xFF := by
    have h := ofBitsLSB_map_not (bitsLSB 8 address)
    rw [va, la] at h
    rw [xor_byte address ha]; omega
  have nc : ofBitsLSB ((bitsLSB 8 command).map not) = command ^^^ 0xFF := by
    have h := ofBitsLSB_map_not (bitsLSB 8 command)
    rw [vc, lc] at h
    rw [xor_byte command hc]; omega
  refine ⟨hlen, by rw [h1, va], by rw [h2, na], by rw [h3, vc], by rw [h4, nc], ?_⟩
  unfold necDecode
  simp only [h1, h2, h3, h4, hlen, and_self, if_true, va, vc]

set_option maxRecDepth 100000 in
/-- Every frame of a recognized token goes to the address `0x78` with a
one-byte command and no repeat. -/
theorem frames_bytes_of_recognized :
    ∀ t ∈ recognizedTokens, ∀ f ∈ frames (processCommand t),
      f.1 = YAMAHA_ADDRESS ∧ f.2.1 < 256 ∧ f.2.2 = 0 := by
  decide

theorem frames_bytes_processCommand (cmd : String) :
    ∀ f ∈ frames (processCommand cmd),
      f.1 = YAMAHA_ADDRESS ∧ f.2.1 < 256 ∧ f.2.2 = 0 := by
  by_cases h : cstr cmd ∈ recognizedTokens
  · have hr := frames_bytes_of_recognized (cstr cmd) h
    rw [processCommand_cstr] at hr
    exact hr
  · rw [processCommand_of_not_recognized cmd h]
    intro f hf
    simp [frames] at hf

theorem frames_bytes_loop (buttonLow : Bool) (rx : List Char) :
    ∀ f ∈ frames (loop buttonLow rx).1,
      f.1 = YAMAHA_ADDRESS ∧ f.2.1 < 256 ∧ f.2.2 = 0 := by
  have hp : ∀ f ∈ frames (sendPowerCommand ++ [Event.delay 500]),
      f.1 = YAMAHA_ADDRESS ∧ f.2.1 < 256 ∧ f.2.2 = 0 := by decide
  intro f hf
  by_cases hr : 0 < rx.length <;> cases buttonLow
  · have he : (loop false rx).1
        = processCommand (toUpperCase (trim (readStringUntil '\n' rx).1)) := by
      simp [loop, hr]
    rw [he] at hf
    exact frames_bytes_processCommand _ f hf
  · have he : (loop true rx).1 = (sendPowerCommand ++ [Event.delay 500])
        ++ processCommand (toUpperCase (trim (readStringUntil '\n' rx).1)) := by
      simp [loop, hr]
    rw [he, frames_append, List.mem_append] at hf
    rcases hf with hf | hf
    · exact hp f hf
    · exact frames_bytes_processCommand _ f hf
  · have he : (loop false rx).1 = [] := by simp [loop, hr]
    rw [he] at hf
    simp [frames] at hf
  · have he : (loop true rx).1 = sendPowerCommand ++ [Event.delay 500] := by
      simp [loop, hr]
    rw [he] at hf
    exact hp f hf

/-- C7. Every frame the sketch hands to the transmitter, on any pass of
`loop` (button pressed or not, any serial input), is for the address `0x78`
and a one-byte command; its NEC frame has 32 bits, least significant bit
first: the address byte, its bitwise complement, the command byte, its
bitwise complement; and decoding that frame gives back exactly the
`(address, command)` pair. -/
theorem transmitted_frame_roundtrip (buttonLow : Bool) (rx : List Char)
    (address command repeats : Nat)
    (h : (address, command, repeats) ∈ frames (loop buttonLow rx).1) :
    address = 0x78 ∧ command < 256
    ∧ (necFrame address command).length = 32
    ∧ ofBitsLSB ((necFrame address command).take 8) = address
    ∧ ofBitsLSB (((necFrame address command).drop 8).take 8) = address ^^^ 0xFF
    ∧ ofBitsLSB (((necFrame address command).drop 16).take 8) = command
    ∧ ofBitsLSB (((necFrame address command).drop 24).take 8) = command ^^^ 0xFF
    ∧ necDecode (necFrame address command) = some (address, command) := by
  obtain ⟨ha, hc, _⟩ := frames_bytes_loop buttonLow rx _ h
  simp only at ha hc
  subst ha
  exact ⟨rfl, hc, necDecode_necFrame YAMAHA_ADDRESS command (by decide) hc⟩

/-- Witness of C7: the frame of the serial line `play`. -/
theorem transmitted_frame_roundtrip_witness :
    (0x78, 0x02, 0) ∈ frames (loop false "play\n".data).1
    ∧ (0x78 = 0x78 ∧ 0x02 < 256
      ∧ (necFrame 0x78 0x02).length = 32
      ∧ ofBitsLSB ((necFrame 0x78 0x02).take 8) = 0x78
      ∧ ofBitsLSB (((necFrame 0x78 0x02).drop 8).take 8) = 0x78 ^^^ 0xFF
      ∧ ofBitsLSB (((necFrame 0x78 0x02).drop 16).take 8) = 0x02
      ∧ ofBitsLSB (((necFrame 0x78 0x02).drop 24).take 8) = 0x02 ^^^ 0xFF
      ∧ necDecode (necFrame 0x78 0x02) = some (0x78, 0x02)) :=
  ⟨by decide, transmitted_frame_roundtrip false "play\n".data 0x78 0x02 0 (by decide)⟩

/-! ## Distinct functions, distinct codes -/

/-- C8 as stated fails: `TEST` and `VOL+` are recognized tokens that both
transmit, both send the code `0x1E`, and are handled by different arms. -/
theorem test_shares_code_with_volume_up :
    ¬ ∀ t1 ∈ recognizedTokens, ∀ t2 ∈ recognizedTokens,
        frames (processCommand t1) ≠ [] → frames (processCommand t2) ≠ [] →
        ∀ c, c ∈ codes (processCommand t1) → c ∈ codes (processCommand t2) →
          branchOf t1 = branchOf t2 := by
  intro h
  exact absurd
    (h "TEST" (by decide) "VOL+" (by decide) (by decide) (by decide) 0x1E
      (by decide) (by decide))
    (by decide)

set_option maxRecDepth 100000 in
/-- Recognized tokens other than `TEST` that share a transmitted code select
the same arm. -/
theorem shared_code_of_recognized :
    ∀ t1 ∈ recognizedTokens, ∀ t2 ∈ recognizedTokens, t1 ≠ "TEST" → t2 ≠ "TEST" →
      ∀ c ∈ codes (processCommand t1), c ∈ codes (processCommand t2) →
        branchOf t1 = branchOf t2 ∧ processCommand t1 = processCommand t2 := by
  decide

/-- C8, amended. Two recognized tokens other than `TEST` for which
`processCommand` sends a common command code select the same arm (they are
aliases) and produce the same events; the same holds of any two command
texts whose part before the first NUL character is not `TEST`; `TEST`
replays the codes of `VOL+`, `VOL-` and `POWER`; the digit tokens `0`..`9`
send the ten distinct codes `0x10`..`0x19`; the command-code constants are
pairwise distinct bytes. -/
theorem distinct_functions_distinct_codes :
    (∀ (t1 t2 : String) (c : Nat), t1 ∈ recognizedTokens → t2 ∈ recognizedTokens →
        t1 ≠ "TEST" → t2 ≠ "TEST" →
        c ∈ codes (processCommand t1) → c ∈ codes (processCommand t2) →
        branchOf t1 = branchOf t2 ∧ processCommand t1 = processCommand t2)
    ∧ (∀ (t1 t2 : String) (c : Nat), cstr t1 ≠ "TEST" → cstr t2 ≠ "TEST" →
        c ∈ codes (processCommand t1) → c ∈ codes (processCommand t2) →
        branchOf t1 = branchOf t2 ∧ processCommand t1 = processCommand t2)
    ∧ codes (processCommand "TEST") = [VOL_UP, VOL_DOWN, POWER, POWER]
    ∧ (List.range 10).map digitToken = ["0", "1", "2", "3", "4", "5", "6", "7", "8", "9"]
    ∧ (List.range 10).map (fun d => codes (processCommand (digitToken d)))
        = [[0x10], [0x11], [0x12], [0x13], [0x14], [0x15], [0x16], [0x17], [0x18], [0x19]]
    ∧ ((List.range 10).map (fun d => codes (processCommand (digitToken d)))).Nodup
    ∧ commandCodes.Nodup
    ∧ (∀ c ∈ commandCodes, c < 256) := by
  refine ⟨fun t1 t2 c r1 r2 h1 h2 m1 m2 =>
      shared_code_of_recognized t1 r1 t2 r2 h1 h2 c m1 m2,
    fun t1 t2 c h1 h2 m1 m2 => ?_, by decide, by decide, by decide, by decide,
    by decide, by decide⟩
  by_cases r1 : cstr t1 ∈ recognizedTokens
  · by_cases r2 : cstr t2 ∈ recognizedTokens
    · rw [← processCommand_cstr t1] at m1
      rw [← processCommand_cstr t2] at m2
      have h := shared_code_of_recognized (cstr t1) r1 (cstr t2) r2 h1 h2 c m1 m2
      rw [branchOf_cstr, branchOf_cstr, processCommand_cstr, processCommand_cstr] at h
      exact h
    · rw [processCommand_of_not_recognized t2 r2] at m2
      simp [codes, frames] at m2
  · rw [processCommand_of_not_recognized t1 r1] at m1
    simp [codes, frames] at m1

/-- Witness of C8, amended: the aliases `VOL+` and `VOLUP`. -/
theorem distinct_functions_distinct_codes_witness :
    "VOL+" ∈ recognizedTokens ∧ "VOLUP" ∈ recognizedTokens
    ∧ "VOL+" ≠ "TEST" ∧ "VOLUP" ≠ "TEST"
    ∧ 0x1E ∈ codes (processCommand "VOL+") ∧ 0x1E ∈ codes (processCommand "VOLUP")
    ∧ branchOf "VOL+" = branchOf "VOLUP"
    ∧ processCommand "VOL+" = processCommand "VOLUP" :=
  ⟨by decide, by decide, by decide, by decide, by decide, by decide,
    distinct_functions_distinct_codes.1 "VOL+" "VOLUP" 0x1E
      (by decide) (by decide) (by decide) (by decide) (by decide) (by decide)⟩

/-! ## Normalization of the serial line -/

theorem toupper_eq_of_sameLetter (a b : Char) (h : sameLetter a b = true) :
    toupper a = toupper b := by
  simp only [sameLetter, isUpperLetter, Bool.or_eq_true, Bool.and_eq_true, beq_iff_eq,
    decide_eq_true_eq] at h
  rcases h with (h | ⟨⟨h1, h2⟩, h3⟩) | ⟨⟨h1, h2⟩, h3⟩
  · rw [h]
  · have hb : toupper b = b := by
      unfold toupper; rw [if_neg (by omega)]
    have ha : toupper a = b := by
      unfold toupper; rw [if_pos (by omega), h3, Nat.add_sub_cancel, Char.ofNat_toNat]
    rw [ha, hb]
  · have ha : toupper a = a := by
      unfold toupper; rw [if_neg (by omega)]
    have hb : toupper b = a := by
      unfold toupper; rw [if_pos (by omega), h3, Nat.add_sub_cancel, Char.ofNat_toNat]
    rw [ha, hb]

theorem isspace_eq_of_sameLetter (a b : Char) (h : sameLetter a b = true) :
    isspace a = isspace b := by
  simp only [sameLetter, isUpperLetter, Bool.or_eq_true, Bool.and_eq_true, beq_iff_eq,
    decide_eq_true_eq] at h
  rcases h with (h | ⟨⟨h1, h2⟩, h3⟩) | ⟨⟨h1, h2⟩, h3⟩
  · rw [h]
  · have ha : isspace a = false := by simp [isspace]; omega
    have hb : isspace b = false := by simp [isspace]; omega
    rw [ha, hb]
  · have ha : isspace a = false := by simp [isspace]; omega
    have hb : isspace b = false := by simp [isspace]; omega
    rw [ha, hb]

theorem notNul_eq_of_sameLetter (a b : Char) (h : sameLetter a b = true) :
    notNul a = notNul b := by
  simp only [sameLetter, isUpperLetter, Bool.or_eq_true, Bool.and_eq_true, beq_iff_eq,
    decide_eq_true_eq] at h
  rcases h with (h | ⟨⟨h1, h2⟩, h3⟩) | ⟨⟨h1, h2⟩, h3⟩
  · rw [h]
  · have ha : notNul a = true := by simp [notNul]; omega
    have hb : notNul b = true := by simp [notNul]; omega
    rw [ha, hb]
  · have ha : notNul a = true := by simp [notNul]; omega
    have hb : notNul b = true := by simp [notNul]; omega
    rw [ha, hb]

theorem map_notNul_of_caseVariant (s t : List Char) (h : caseVariant s t = true) :
    s.map notNul = t.map notNul := by
  induction s generalizing t with
  | nil => cases t with
    | nil => rfl
    | cons b t => simp [caseVariant] at h
  | cons a s ih => cases t with
    | nil => simp [caseVariant] at h
    | cons b t =>
      simp only [caseVariant, Bool.and_eq_true] at h
      simp [notNul_eq_of_sameLetter a b h.1, ih t h.2]

set_option maxRecDepth 100000 in
/-- Recognized tokens have no NUL character. -/
theorem recognized_notNul :
    ∀ t ∈ recognizedTokens, ∀ b ∈ t.data.map notNul, b = true := by
  decide

theorem map_toupper_of_caseVariant (s t : List Char) (h : caseVariant s t = true) :
    s.map toupper = t.map toupper := by
  induction s generalizing t with
  | nil => cases t with
    | nil => rfl
    | cons b t => simp [caseVariant] at h
  | cons a s ih => cases t with
    | nil => simp [caseVariant] at h
    | cons b t =>
      simp only [caseVariant, Bool.and_eq_true] at h
      simp [toupper_eq_of_sameLetter a b h.1, ih t h.2]

theorem map_isspace_of_caseVariant (s t : List Char) (h : caseVariant s t = true) :
    s.map isspace = t.map isspace := by
  induction s generalizing t with
  | nil => cases t with
    | nil => rfl
    | cons b t => simp [caseVariant] at h
  | cons a s ih => cases t with
    | nil => simp [caseVariant] at h
    | cons b t =>
      simp only [caseVariant, Bool.and_eq_true] at h
      simp [isspace_eq_of_sameLetter a b h.1, ih t h.2]

theorem dropWhile_append_of_all (p : Char → Bool) (pre l : List Char)
    (h : ∀ c ∈ pre, p c = true) : (pre ++ l).dropWhile p = l.dropWhile p := by
  induction pre with
  | nil => rfl
  | cons a pre ih =>
    have ha : p a = true := h a (List.mem_cons_self a pre)
    simp only [List.cons_append, List.dropWhile_cons, ha, if_true]
    exact ih (fun c hc => h c (List.mem_cons_of_mem a hc))

theorem dropWhile_of_head_not (p : Char → Bool) (l : List Char)
    (h : ∀ c ∈ l, p c = false) : l.dropWhile p = l := by
  cases l with
  | nil => rfl
  | cons a l =>
    have ha : p a = false := h a (List.mem_cons_self a l)
    simp [List.dropWhile_cons, ha]

/-- `trim` removes whitespace put around a non-empty text without
whitespace. -/
theorem trim_padded (pre s post : List Char)
    (hpre : ∀ c ∈ pre, isspace c = true) (hpost : ∀ c ∈ post, isspace c = true)
    (hs : ∀ c ∈ s, isspace c = false) :
    trim (String.mk (pre ++ s ++ post)) = String.mk s := by
  unfold trim
  congr 1
  cases s with
  | nil =>
    have hall : ∀ c ∈ pre ++ [] ++ post, isspace c = true := by
      intro c hc
      simp only [List.append_nil, List.mem_append] at hc
      rcases hc with hc | hc
      · exact hpre c hc
      · exact hpost c hc
    have h0 := dropWhile_append_of_all isspace (pre ++ [] ++ post) [] hall
    simp only [List.append_nil] at h0
    simp [h0]
  | cons a s =>
    have h1 : (pre ++ a :: s ++ post).dropWhile isspace = a :: s ++ post := by
      rw [List.append_assoc, dropWhile_append_of_all isspace pre _ hpre]
      have ha : isspace a = false := hs a (List.mem_cons_self a s)
      simp [List.dropWhile_cons, ha]
    have h2 : (a :: s ++ post).reverse.dropWhile isspace = (a :: s).reverse := by
      rw [List.reverse_append,
        dropWhile_append_of_all isspace post.reverse _
          (fun c hc => hpost c (List.mem_reverse.mp hc))]
      exact dropWhile_of_head_not isspace _ (fun c hc => hs c (List.mem_reverse.mp hc))
    show (((pre ++ a :: s ++ post).dropWhile isspace).reverse.dropWhile isspace).reverse = a :: s
    rw [h1, h2, List.reverse_reverse]

theorem takeWhile_until (term : Char) (l rest : List Char) (h : term ∉ l) :
    (l ++ term :: rest).takeWhile (fun c => c != term) = l
    ∧ (l ++ term :: rest).dropWhile (fun c => c != term) = term :: rest := by
  induction l with
  | nil => simp [List.takeWhile_cons, List.dropWhile_cons]
  | cons a l ih =>
    have ha : a ≠ term := fun e => h (e ▸ List.mem_cons_self a l)
    have hl : term ∉ l := fun m => h (List.mem_cons_of_mem a m)
    obtain ⟨i1, i2⟩ := ih hl
    simp [List.takeWhile_cons, List.dropWhile_cons, ha, i1, i2]

theorem takeWhile_no_terminator (term : Char) (l : List Char) (h : term ∉ l) :
    l.takeWhile (fun c => c != term) = l
    ∧ l.dropWhile (fun c => c != term) = [] := by
  induction l with
  | nil => simp
  | cons a l ih =>
    have ha : a ≠ term := fun e => h (e ▸ List.mem_cons_self a l)
    have hl : term ∉ l := fun m => h (List.mem_cons_of_mem a m)
    obtain ⟨i1, i2⟩ := ih hl
    simp [List.takeWhile_cons, List.dropWhile_cons, ha, i1, i2]

set_option maxRecDepth 100000 in
/-- Recognized tokens are non-empty, already upper case and free of
whitespace. -/
theorem recognized_normal :
    ∀ t ∈ recognizedTokens,
      t.data.map toupper = t.data ∧ (∀ b ∈ t.data.map isspace, b = false) ∧ t.data ≠ [] := by
  decide

/-- A padded case variant of a recognized token, read as a line, is
normalized by `trim` and `toUpperCase` to the token. -/
theorem normalize_variant (t : String) (s pre post : List Char)
    (ht : t ∈ recognizedTokens) (hs : caseVariant s t.data = true)
    (hpre : isPadding pre = true) (hpost : isPadding post = true) :
    '\n' ∉ pre ++ s ++ post
    ∧ 0 < (pre ++ s ++ post).length
    ∧ toUpperCase (trim (String.mk (pre ++ s ++ post))) = t := by
  obtain ⟨hup, hsp, hne⟩ := recognized_normal t ht
  have hmap := map_toupper_of_caseVariant s t.data hs
  have hspace := map_isspace_of_caseVariant s t.data hs
  have hs_space : ∀ c ∈ s, isspace c = false := by
    intro c hc
    apply hsp
    rw [← hspace]
    exact List.mem_map_of_mem isspace hc
  have hpad : ∀ l : List Char, isPadding l = true →
      ∀ c ∈ l, isspace c = true ∧ c ≠ '\n' := by
    intro l hl c hc
    simp only [isPadding, List.all_eq_true, Bool.and_eq_true, bne_iff_ne] at hl
    exact hl c hc
  have hs_ne : s ≠ [] := by
    intro e
    rw [e] at hmap
    rw [hup] at hmap
    exact hne hmap.symm
  refine ⟨?_, ?_, ?_⟩
  · intro hm
    simp only [List.mem_append] at hm
    rcases hm with (hm | hm) | hm
    · exact (hpad pre hpre _ hm).2 rfl
    · have := hs_space _ hm
      simp [isspace] at this
    · exact (hpad post hpost _ hm).2 rfl
  · cases s with
    | nil => exact absurd rfl hs_ne
    | cons a s => simp
  · rw [trim_padded pre s post (fun c hc => (hpad pre hpre c hc).1)
      (fun c hc => (hpad post hpost c hc).1) hs_space]
    have hnn : ∀ c ∈ s, notNul c = true := by
      intro c hc
      apply recognized_notNul t ht
      rw [← map_notNul_of_caseVariant s t.data hs]
      exact List.mem_map_of_mem notNul hc
    have ht1 : s.takeWhile notNul = s := List.takeWhile_eq_self_iff.mpr hnn
    have ht2 : s.dropWhile notNul = [] := List.dropWhile_eq_nil_iff.mpr hnn
    unfold toUpperCase
    show String.mk ((s.takeWhile notNul).map toupper ++ s.dropWhile notNul) = t
    rw [ht1, ht2, List.append_nil, hmap, hup]

/-- C6. The serial path is case-insensitive and whitespace-trimming: for a
recognized token `t`, a line made of a case variant of `t` with whitespace
before and after it (terminated by a newline, or ending the input) is
handled by a pass of `loop` exactly as the line `t` is, that is by
`processCommand t`; the lines ` play `, `PLAY` and `Play` all produce the
single frame `(0x78, 0x02)` of `PLAY`. -/
theorem loop_normalizes_line :
    (∀ (t : String) (s pre post rest : List Char) (buttonLow : Bool),
        t ∈ recognizedTokens → caseVariant s t.data = true →
        isPadding pre = true → isPadding post = true →
        loop buttonLow (pre ++ s ++ post ++ '\n' :: rest)
            = loop buttonLow (t.data ++ '\n' :: rest)
        ∧ loop false (pre ++ s ++ post ++ '\n' :: rest) = (processCommand t, rest)
        ∧ loop false (pre ++ s ++ post) = (processCommand t, []))
    ∧ (loop false " play \n".data).1 = sendIRCommand PLAY "PLAY"
    ∧ (loop false "PLAY".data).1 = sendIRCommand PLAY "PLAY"
    ∧ (loop false "Play".data).1 = sendIRCommand PLAY "PLAY"
    ∧ frames (sendIRCommand PLAY "PLAY") = [(0x78, 0x02, 0)] := by
  have line : ∀ (t : String) (s pre post rest : List Char) (buttonLow : Bool),
      t ∈ recognizedTokens → caseVariant s t.data = true →
      isPadding pre = true → isPadding post = true →
      loop buttonLow (pre ++ s ++ post ++ '\n' :: rest)
        = ((if buttonLow then sendPowerCommand ++ [Event.delay 500] else [])
            ++ processCommand t, rest) := by
    intro t s pre post rest buttonLow ht hs hpre hpost
    obtain ⟨hnl, hlen, hnorm⟩ := normalize_variant t s pre post ht hs hpre hpost
    obtain ⟨k1, k2⟩ := takeWhile_until '\n' (pre ++ s ++ post) rest hnl
    have hpos : 0 < (pre ++ s ++ post ++ '\n' :: rest).length := by
      rw [List.length_append]; omega
    unfold loop
    rw [if_pos hpos]
    simp only [readStringUntil, k1, k2, hnorm, List.drop_succ_cons, List.drop_zero]
  have caseRefl : ∀ l : List Char, caseVariant l l = true := by
    intro l
    induction l with
    | nil => rfl
    | cons a l ih => simp [caseVariant, sameLetter, ih]
  refine ⟨fun t s pre post rest buttonLow ht hs hpre hpost => ⟨?_, ?_, ?_⟩,
    by decide, by decide, by decide, by decide⟩
  · have h1 := line t s pre post rest buttonLow ht hs hpre hpost
    have h2 := line t t.data [] [] rest buttonLow ht (caseRefl t.data) rfl rfl
    simp only [List.nil_append, List.append_nil] at h2
    rw [h1, h2]
  · have h1 := line t s pre post rest false ht hs hpre hpost
    simpa using h1
  · obtain ⟨hnl, hlen, hnorm⟩ := normalize_variant t s pre post ht hs hpre hpost
    obtain ⟨k1, k2⟩ := takeWhile_no_terminator '\n' (pre ++ s ++ post) hnl
    unfold loop
    rw [if_pos hlen]
    simp only [readStringUntil, k1, k2, hnorm, List.drop_nil, Bool.false_eq_true, if_false,
      List.nil_append]

/-- Witness of C6: the line `<space><tab>pLaY<cr><space>` followed by
another line. -/
theorem loop_normalizes_line_witness :
    "PLAY" ∈ recognizedTokens ∧ caseVariant "pLaY".data "PLAY".data = true
    ∧ isPadding " \t".data = true ∧ isPadding "\r ".data = true
    ∧ loop false (" \t".data ++ "pLaY".data ++ "\r ".data ++ '\n' :: "stop\n".data)
        = loop false ("PLAY".data ++ '\n' :: "stop\n".data)
    ∧ loop false (" \t".data ++ "pLaY".data ++ "\r ".data ++ '\n' :: "stop\n".data)
        = (processCommand "PLAY", "stop\n".data)
    ∧ loop false (" \t".data ++ "pLaY".data ++ "\r ".data) = (processCommand "PLAY", []) :=
  ⟨by decide, by decide, by decide, by decide,
    loop_normalizes_line.1 "PLAY" "pLaY".data " \t".data "\r ".data "stop\n".data false
      (by decide) (by decide) (by decide) (by decide)⟩


end Yamaha
